import Mathlib

/-!
Verification development for the bashme.ai repository
(`src/bashme/server.py`, `src/bashme/client.py`, `src/bashme/agent_daemon.py`).

The Python sources are shallowly embedded: each tool of `server.py` becomes a
pure Lean function over an explicit model of its external world (filesystem,
history file, subprocess outcome, process environment); the langgraph
orchestration loop of `client.py` becomes a step function on message lists;
the cachetools machinery wrapping the tools becomes an explicit cache state.
-/

set_option autoImplicit false

namespace Bashme

/-! ## JSON-like argument values

Tool arguments arrive as JSON-decoded Python values.  The tools of
`server.py` only ever receive strings (`ls.path`, `man.command_name`)
and integers (`history.n`); `env` takes no argument. -/

inductive Value where
  | vStr (s : String)
  | vInt (n : Int)
  deriving DecidableEq, Repr

/-! ## Python string helpers

`pyStrip` models Python `str.strip()` restricted to the ASCII whitespace
characters Python strips (space, tab, newline, carriage return, vertical
tab, form feed); the Unicode space classes Python additionally strips do
not occur in the inputs the claims are about. -/

def isPySpace (c : Char) : Bool :=
  c = ' ' || c = '\t' || c = '\n' || c = '\r' || c = '\x0b' || c = '\x0c'

def pyStrip (s : String) : String :=
  String.mk (((s.data.dropWhile isPySpace).reverse.dropWhile isPySpace).reverse)

/-- Models Python `s.startswith("#")`: the first character is `#`. -/
def headIsHash (s : String) : Bool :=
  s.data.head? == some '#'

/-- Models Python `s.split("\n")` on the character list: split at every
newline, keeping empty pieces; the empty string yields `[""]`. -/
def splitNlAux : List Char → List Char → List String
  | [], acc => [String.mk acc.reverse]
  | c :: cs, acc =>
      if c = '\n' then String.mk acc.reverse :: splitNlAux cs []
      else splitNlAux cs (c :: acc)

def pySplitNewline (s : String) : List String :=
  splitNlAux s.data []

/-! ## server.py: the `ls` tool

`ls(path)` builds `Path(path)`, returns `[]` when the path does not exist
or is not a directory, and otherwise returns `[str(x) for x in
directory_path.iterdir()]`.  `iterdir()` yields one `Path` per direct
child, and `str(directory_path / name)` is the directory path joined with
the child name (for a normalized path: `path ++ "/" ++ name`, with no
doubled slash when the path already ends in `/`).  The filesystem is
modelled as a partial map from (normalized) path strings to nodes. -/

inductive FSNode where
  | file
  | dir (entries : List String)
  deriving DecidableEq, Repr

abbrev FileSystem := String → Option FSNode

def pathJoin (p e : String) : String :=
  if p.data.getLast? = some '/' then p ++ e else p ++ "/" ++ e

def ls (fs : FileSystem) (path : String) : List String :=
  match fs path with
  | none => []
  | some FSNode.file => []
  | some (FSNode.dir entries) => entries.map (fun e => pathJoin path e)

/-! ## server.py: the `history` tool

`history(n)` returns `[]` for `n <= 0`, for a missing (or unreadable)
history file, and otherwise walks `reversed(all_lines)`, strips each
line, keeps non-empty lines not starting with `#`, stops after `n` of
them, and reverses back.  The file is modelled as `Option (List String)`:
`none` for missing or unreadable, `some lines` for its raw lines. -/

def validCommand (s : String) : Bool :=
  !(s == "") && !(headIsHash s)

def history (file : Option (List String)) (n : Int) : List String :=
  if n ≤ 0 then []
  else
    match file with
    | none => []
    | some lines =>
        ((((lines.reverse).map pyStrip).filter validCommand).take n.toNat).reverse

/-! ## server.py: the `man` resource

`man(command_name)` runs `subprocess.run(["man", name], check=True, ...)`
and catches exactly two exceptions: `subprocess.CalledProcessError`
(non-zero exit, raised because of `check=True`) and `FileNotFoundError`
(the `man` executable is absent from the search path).  Per the Python
`subprocess` documentation, launching the child can also raise other
`OSError` subclasses — for example `PermissionError` when the executable
exists but execute permission is denied — and those are not caught.  The
outcome of `subprocess.run` is therefore modelled with four constructors,
and `man` returns `Except`: `Except.error` models an exception
propagating out of the function. -/

inductive RunResult where
  | completed (returncode : Int) (stdout : String) (stderr : String)
  | fileNotFound
  | otherOSError (msg : String)
  deriving DecidableEq, Repr

def man (r : RunResult) : Except String String :=
  match r with
  | RunResult.completed rc out _ =>
      if rc = 0 then Except.ok out else Except.ok ""
  | RunResult.fileNotFound => Except.ok ""
  | RunResult.otherOSError m => Except.error m

/-! ## server.py: the `env` tool and Python heap model

`env()` is `return dict(os.environ)`.  To express that the returned
mapping is a *disconnected copy* — the whole content of the claim — the
relevant fragment of Python object semantics is embedded: a heap of
dictionaries addressed by natural numbers, with `os.environ` living at a
fixed address.  `dict(d)` allocates a fresh address holding a copy of the
contents; `d[k] = v` mutates the dictionary at one address in place. -/

abbrev Dict := List (String × String)

structure PyState where
  heap : Nat → Dict
  nextAddr : Nat

def environAddr : Nat := 0

/-- A state is well formed when every address the allocator can hand out
is distinct from the address of the live `os.environ` object. -/
def PyState.WF (s : PyState) : Prop := environAddr < s.nextAddr

/-- Models `dict(os.environ)`: allocate a fresh dictionary whose contents
are copied from the live environment, and return its address. -/
def envTool (s : PyState) : Nat × PyState :=
  (s.nextAddr,
   { heap := fun a => if a = s.nextAddr then s.heap environAddr else s.heap a,
     nextAddr := s.nextAddr + 1 })

def dictSet (d : Dict) (k v : String) : Dict :=
  (k, v) :: d.filter (fun kv => kv.1 ≠ k)

/-- Models the in-place mutation `heap[a][k] = v`. -/
def setItem (s : PyState) (a : Nat) (k v : String) : PyState :=
  { s with heap := fun x => if x = a then dictSet (s.heap a) k v else s.heap x }

/-- A sequence of in-place mutations applied to the dictionary at `a`. -/
def applyMuts (s : PyState) (a : Nat) (muts : List (String × String)) : PyState :=
  muts.foldl (fun st kv => setItem st a kv.1 kv.2) s

/-! ## Cache machinery of server.py

`server.py` creates one shared `ttl_cache = TTLCache(maxsize=1024, ttl=5)`
and wraps `ls`, `history` and `env` with `@cached(ttl_cache)` (and `man`
with a separate `LRUCache`).  The cachetools `cached` decorator uses the
default key function `hashkey(*args, **kwargs)`: the key is built from the
call arguments only — the wrapped function's name is NOT part of the key.
Because the tools are additionally wrapped by the signature-preserving
`@log_io` decorator (built with the `decorator` library), keyword
arguments are bound to the declared parameters and forwarded positionally,
so the key reaching the cache is the tuple of argument values in
declaration order.

An entry of `TTLCache(ttl=5)` inserted at time `t` is returned while
`now < t + 5` and treated as expired afterwards.  The `maxsize`-driven
eviction is not modelled: the theorems below relate a call to the
immediately following call on the same cache state, where no eviction
can intervene.  `invocations` counts calls of the underlying tool
(the observable invocation counter of the spec). -/

abbrev CacheKey := List Value

set_option linter.unusedVariables false in
/-- Key derivation of the `@cached` wrappers in server.py, as a function
of the tool name and the bound argument tuple: the name is ignored,
only the canonicalized arguments enter the key. -/
def cacheKeyOf (toolName : String) (boundArgs : List Value) : CacheKey :=
  boundArgs

/-- Argument-tuple key of a call `ls(path=s)` after signature binding. -/
def lsKey (s : String) : CacheKey := [Value.vStr s]

/-- Argument-tuple key of a call `history(n=k)` after signature binding. -/
def historyKey (n : Int) : CacheKey := [Value.vInt n]

/-- Argument-tuple key of a call `env()` after signature binding. -/
def envKey : CacheKey := []

structure CacheState (V : Type) where
  entries : List (CacheKey × V × Nat)
  invocations : Nat

def ttlSeconds : Nat := 5

def ttlGet {V : Type} (c : CacheState V) (now : Nat) (k : CacheKey) : Option V :=
  match c.entries.find? (fun e => e.1 = k) with
  | some (_, v, t) => if now < t + ttlSeconds then some v else none
  | none => none

/-- The `cached(ttl_cache)` wrapper: look the key up; on a hit return the
cached value untouched; on a miss invoke the underlying function, insert
the result, and bump the invocation counter. -/
def cachedCall {V : Type} (f : CacheKey → V) (c : CacheState V) (now : Nat)
    (k : CacheKey) : V × CacheState V :=
  match ttlGet c now k with
  | some v => (v, c)
  | none =>
      let v := f k
      (v, ⟨(k, v, now) :: c.entries, c.invocations + 1⟩)

/-- Binding of keyword arguments to declared parameter names, performed by
the `decorator`-library wrapper before the cache key is computed: each
parameter picks the entry of the keyword mapping carrying its name. -/
def lookupArg (kwargs : List (String × Value)) (p : String) : Option Value :=
  (kwargs.find? (fun kv => kv.1 == p)).map (fun kv => kv.2)

def bindArgs (params : List String) (kwargs : List (String × Value)) :
    List (Option Value) :=
  params.map (fun p => lookupArg kwargs p)

/-! ## client.py: conversation messages and the langgraph loop

`create_graph` builds a two-node langgraph: `chat_node` calls the model
and returns `{"messages": add_messages(state["messages"], [response])}`;
the prebuilt `ToolNode` executes every tool call of the last (assistant)
message and returns `{"messages": [one ToolMessage per call, in call
order]}`.  `tools_condition` routes to the tool node exactly when the
last message is an assistant message with a non-empty `tool_calls` list,
and to the end otherwise.

Crucially, `State` is declared as `class State(TypedDict): messages:
list[AnyMessage]` — the `messages` field carries NO `add_messages`
reducer annotation, so langgraph gives it a last-value channel: the
dictionary a node returns REPLACES the previous channel value.
`chat_node` happens to return the full appended list (it applies
`add_messages` by hand inside the node), but `ToolNode` returns only the
new tool messages, so executing a tool round overwrites the conversation
with just those tool messages.  The step functions below embed exactly
that behaviour.  `add_messages` on messages bearing fresh ids is list
append. -/

inductive Role where
  | user
  | assistant
  | tool
  deriving DecidableEq, Repr

structure ToolCall where
  id : String
  name : String
  args : List (String × Value)
  deriving DecidableEq, Repr

structure Message where
  role : Role
  content : String
  tool_calls : List ToolCall
  tool_call_id : Option String
  deriving DecidableEq, Repr

def mkUserMessage (content : String) : Message :=
  ⟨Role.user, content, [], none⟩

/-- The ToolMessage built for one tool call: its content is the tool's
result, correlated to the originating request by `tool_call_id`. -/
def mkToolMessage (exec : ToolCall → String) (tc : ToolCall) : Message :=
  ⟨Role.tool, exec tc, [], some tc.id⟩

/-- The `add_messages` merge for messages with fresh ids: append. -/
def addMessages (l r : List Message) : List Message := l ++ r

/-- Tool calls pending after the last message, as inspected by
`tools_condition` and consumed by `ToolNode`: the `tool_calls` of the
last message when it is an assistant message, nothing otherwise. -/
def pendingToolCalls (msgs : List Message) : List ToolCall :=
  match msgs.getLast? with
  | some m => if m.role = Role.assistant then m.tool_calls else []
  | none => []

/-- The chat node: ask the model, append its response by hand via
`add_messages`; the returned list becomes the new channel value. -/
def chatNode (model : List Message → Message) (msgs : List Message) :
    List Message :=
  addMessages msgs [model msgs]

/-- The value `ToolNode` writes to the `messages` channel: one tool
message per pending tool call, in the order of the originating calls —
and nothing else. -/
def toolNodeUpdate (exec : ToolCall → String) (msgs : List Message) :
    List Message :=
  (pendingToolCalls msgs).map (mkToolMessage exec)

/-- One ACTING step of the compiled graph: because the `messages` channel
of `State` has no reducer, the update REPLACES the conversation. -/
def actingStep (exec : ToolCall → String) (msgs : List Message) :
    List Message :=
  toolNodeUpdate exec msgs

/-- The compiled graph run with explicit fuel (the source loop has no
iteration cap): enter the chat node, stop when `tools_condition` sees no
pending tool calls, otherwise run the tool node and loop. -/
def runLoop (model : List Message → Message) (exec : ToolCall → String) :
    Nat → List Message → List Message
  | 0, msgs => msgs
  | Nat.succ fuel, msgs =>
      let msgs1 := chatNode model msgs
      if (pendingToolCalls msgs1).isEmpty then msgs1
      else runLoop model exec fuel (actingStep exec msgs1)

def countRole (r : Role) (msgs : List Message) : Nat :=
  (msgs.filter (fun m => m.role = r)).length

/-- The content `main` extracts: `response["messages"][-1].content`. -/
def finalAnswer (msgs : List Message) : Option String :=
  (msgs.getLast?).map (fun m => m.content)

/-! ## agent_daemon.py: the /generate endpoint

`generate_command` first checks the module-global `agent_executor`: when
warm-up failed it is still `None`, and the endpoint returns
`{"suggestions": ["# Agent not initialized. Check server logs."]}`.
Otherwise it invokes the agent inside `try`; any exception `e` yields
`{"suggestions": [f"# Error: {e}"]}`.  On a successful run the final
message is taken; `if final_message and final_message.content` guards
the split — a falsy final message (modelled `none`) or empty content
yields `{"suggestions": []}`, and otherwise the suggestions are
`final_message.content.strip().split("\n")` (see `pySplitNewline`; in
particular Python `"".split("\n") == [""]`). -/

inductive AgentResult where
  | ok (finalMessage : Option Message)
  | raised (e : String)
  deriving Repr

def splitSuggestions (content : String) : List String :=
  pySplitNewline (pyStrip content)

def generateCommand (agentInitialized : Bool) (run : AgentResult) :
    List String :=
  if !agentInitialized then
    ["# Agent not initialized. Check server logs."]
  else
    match run with
    | AgentResult.raised e => ["# Error: " ++ e]
    | AgentResult.ok none => []
    | AgentResult.ok (some m) =>
        if m.content = "" then [] else splitSuggestions m.content

/-! ## Concrete fixtures used by counterexamples and witnesses -/

def tcLs : ToolCall := ⟨"1", "ls", [("path", Value.vStr "/tmp")]⟩

/-- A conversation after one DECIDING step: the seeding user message and
an assistant message requesting one tool call. -/
def convTwo : List Message :=
  [mkUserMessage "ctx", ⟨Role.assistant, "", [tcLs], none⟩]

def execConst : ToolCall → String := fun _ => "listing"

/-- A model that immediately produces a final answer with no tool calls. -/
def modelFinal : List Message → Message :=
  fun _ => ⟨Role.assistant, "git checkout", [], none⟩

/-- A filesystem with a single directory `/d` holding entries `a`, `b`. -/
def fsAB : FileSystem :=
  fun p => if p = "/d" then some (FSNode.dir ["a", "b"]) else none

def demoLines : List String := ["  ls -la  ", "", "# comment", "git status"]

/-- A Python heap whose live environment holds one variable. -/
def pyState0 : PyState :=
  ⟨fun a => if a = environAddr then [("PATH", "/usr/bin")] else [], 1⟩

/-! ## Helper lemmas -/

theorem splitNlAux_ne_nil (l acc : List Char) : splitNlAux l acc ≠ [] := by
  induction l generalizing acc with
  | nil => simp [splitNlAux]
  | cons c cs ih =>
      by_cases h : c = '\n' <;> simp [splitNlAux, h, ih]

theorem pySplitNewline_ne_nil (s : String) : pySplitNewline s ≠ [] :=
  splitNlAux_ne_nil s.data []

theorem pyStrip_of_all_space (s : String)
    (h : ∀ c ∈ s.data, isPySpace c = true) : pyStrip s = "" := by
  unfold pyStrip
  rw [List.dropWhile_eq_nil_iff.mpr (fun c hc => h c hc)]
  rfl

/-- Looking a parameter name up in a keyword-argument mapping with
pairwise distinct names is invariant under reordering of the mapping. -/
theorem lookupArg_perm {kw1 kw2 : List (String × Value)}
    (h : kw1.Perm kw2) (hnd : (kw1.map Prod.fst).Nodup) (p : String) :
    lookupArg kw1 p = lookupArg kw2 p := by
  induction h with
  | nil => rfl
  | cons x h ih =>
      rw [List.map_cons, List.nodup_cons] at hnd
      by_cases hx : x.1 == p
      · simp [lookupArg, List.find?_cons, hx]
      · simp only [lookupArg, List.find?_cons, hx]
        exact ih hnd.2
  | swap x y l =>
      rw [List.map_cons, List.map_cons, List.nodup_cons, List.nodup_cons]
        at hnd
      by_cases hy : y.1 == p
      · have hxy : x.1 ≠ y.1 := by
          intro hcontra
          exact hnd.1 (hcontra ▸ List.mem_cons_self _ _)
        have hx : (x.1 == p) = false := by
          rw [beq_eq_false_iff_ne]
          intro hcontra
          exact hxy (hcontra.trans (beq_iff_eq.mp hy).symm)
        simp [lookupArg, List.find?_cons, hx, hy]
      · by_cases hx : x.1 == p <;>
          simp [lookupArg, List.find?_cons, hx, hy]
  | trans h1 h2 ih1 ih2 =>
      have hnd2 : (_ : List (String × Value)).map Prod.fst |>.Nodup :=
        ((h1.map Prod.fst).nodup_iff).mp hnd
      rw [ih1 hnd, ih2 hnd2]

/-- Mutating one heap address leaves every other address untouched. -/
theorem applyMuts_heap_ne (muts : List (String × String)) (s : PyState)
    (a b : Nat) (hab : b ≠ a) :
    (applyMuts s a muts).heap b = s.heap b := by
  induction muts generalizing s with
  | nil => rfl
  | cons kv rest ih =>
      show (applyMuts (setItem s a kv.1 kv.2) a rest).heap b = s.heap b
      rw [ih (setItem s a kv.1 kv.2)]
      simp [setItem, hab]

end Bashme

namespace Bashme

/-! ## Claim theorems -/

/-- C1: the claim says the conversation is append-only and that an ACTING
step appends exactly one tool message per pending request after the
previously held messages.  The code violates this: `State.messages`
carries no reducer annotation, so the value `ToolNode` returns — only
the new tool messages — replaces the whole conversation.  At a concrete
conversation of a user message and an assistant message with one pending
tool call, the ACTING step produces a single tool message and the user
message is gone. -/
theorem c1_acting_step_discards_conversation :
    actingStep execConst convTwo =
      [⟨Role.tool, "listing", [], some "1"⟩] ∧
    ¬ mkUserMessage "ctx" ∈ actingStep execConst convTwo := by
  constructor
  · rfl
  · decide

/-- C5 counterexample: the claim says `man` never raises to its caller,
folding every failure into the empty string.  The code catches only
`CalledProcessError` and `FileNotFoundError`; any other `OSError` from
`subprocess.run` — e.g. a `PermissionError` when the `man` binary is
present but not executable — propagates (modelled as `Except.error`). -/
theorem c5_man_other_error_propagates :
    man (RunResult.otherOSError "PermissionError") =
      Except.error "PermissionError" := rfl

/-- C5 amended: `man` returns the captured stdout on exit code 0, and the
empty string when the page is absent (non-zero exit) or the `man`
executable is not found; other OS-level failures while spawning the
subprocess propagate as exceptions. -/
theorem c5_man_amended (out err msg : String) (rc : Int) :
    man (RunResult.completed 0 out err) = Except.ok out ∧
    (rc ≠ 0 → man (RunResult.completed rc out err) = Except.ok "") ∧
    man RunResult.fileNotFound = Except.ok "" ∧
    man (RunResult.otherOSError msg) = Except.error msg := by
  refine ⟨rfl, fun h => ?_, rfl, rfl⟩
  simp [man, h]

theorem c5_man_amended_witness :
    (1 : Int) ≠ 0 ∧ man (RunResult.completed 1 "" "no page") = Except.ok "" :=
  ⟨by decide, (c5_man_amended "" "no page" "x" 1).2.1 (by decide)⟩

/-- C6: when warm-up failed (the agent is unset) or the model call raises,
`/generate` returns exactly one suggestion line and that line begins with
`#`; the failure is never surfaced as a transport-level error (the
handler is total) and the list is never empty in these cases. -/
theorem c6_failure_marker_lines (run : AgentResult) (e : String) :
    generateCommand false run =
      ["# Agent not initialized. Check server logs."] ∧
    (generateCommand false run).length = 1 ∧
    headIsHash ((generateCommand false run).headD "") = true ∧
    generateCommand true (AgentResult.raised e) = ["# Error: " ++ e] ∧
    (generateCommand true (AgentResult.raised e)).length = 1 ∧
    headIsHash ((generateCommand true (AgentResult.raised e)).headD "")
      = true := by
  refine ⟨rfl, rfl, rfl, rfl, rfl, ?_⟩
  cases e with
  | mk data => rfl

/-- C7: when the model's first decision carries no tool calls, the loop
ends immediately: the final conversation is the seeding user message
followed by the model's response — one assistant message, zero tool
messages — and the response content is the final answer. -/
theorem c7_no_tool_round_terminates (model : List Message → Message)
    (exec : ToolCall → String) (fuel : Nat) (c : String)
    (hrole : (model [mkUserMessage c]).role = Role.assistant)
    (hnt : (model [mkUserMessage c]).tool_calls = []) :
    runLoop model exec (fuel + 1) [mkUserMessage c] =
      [mkUserMessage c, model [mkUserMessage c]] ∧
    countRole Role.assistant
      (runLoop model exec (fuel + 1) [mkUserMessage c]) = 1 ∧
    countRole Role.tool
      (runLoop model exec (fuel + 1) [mkUserMessage c]) = 0 ∧
    finalAnswer (runLoop model exec (fuel + 1) [mkUserMessage c]) =
      some (model [mkUserMessage c]).content := by
  have hu : (mkUserMessage c).role = Role.user := rfl
  have hpend :
      pendingToolCalls [mkUserMessage c, model [mkUserMessage c]] = [] := by
    simp [pendingToolCalls, hnt]
  have hrun : runLoop model exec (fuel + 1) [mkUserMessage c] =
      [mkUserMessage c, model [mkUserMessage c]] := by
    simp [runLoop, chatNode, addMessages, hpend]
  refine ⟨hrun, ?_, ?_, ?_⟩
  · rw [hrun]
    simp [countRole, hu, hrole]
  · rw [hrun]
    simp [countRole, hu, hrole]
  · rw [hrun]
    simp [finalAnswer]

theorem c7_witness :
    (modelFinal [mkUserMessage "ctx"]).role = Role.assistant ∧
    runLoop modelFinal execConst 1 [mkUserMessage "ctx"] =
      [mkUserMessage "ctx", modelFinal [mkUserMessage "ctx"]] ∧
    countRole Role.assistant
      (runLoop modelFinal execConst 1 [mkUserMessage "ctx"]) = 1 ∧
    countRole Role.tool
      (runLoop modelFinal execConst 1 [mkUserMessage "ctx"]) = 0 ∧
    finalAnswer (runLoop modelFinal execConst 1 [mkUserMessage "ctx"]) =
      some (modelFinal [mkUserMessage "ctx"]).content :=
  ⟨rfl, c7_no_tool_round_terminates modelFinal execConst 0 "ctx" rfl rfl⟩

/-- C2 counterexample: the claim says the cache key is derived from the
tool name together with the canonicalized arguments.  In server.py the
`@cached` wrappers use the cachetools default `hashkey(*args)`: the key
is the argument tuple alone, so two distinct tools sharing `ttl_cache`
derive identical keys from identical argument tuples. -/
theorem c2_key_ignores_tool_name :
    "ls" ≠ "history" ∧
    cacheKeyOf "ls" [Value.vStr "x"] =
      cacheKeyOf "history" [Value.vStr "x"] :=
  ⟨by decide, rfl⟩

/-- C2 amended: a call repeated with the same tool and canonicalized
arguments within the TTL window returns the identical cached value with
no second invocation of the underlying tool; the cache key is derived
from the canonicalized arguments alone — the tool name is not part of
the key and `ls`, `history`, `env` share one TTL cache — but the bound
argument tuples of the registered tools are pairwise disjoint (a single
string, a single integer, the empty tuple), so distinct tools never
observe each other's entries; and the signature binding performed before
key derivation makes identical calls hit regardless of the ordering of
their keyword arguments. -/
theorem c2_cache_amended :
    (∀ (V : Type) (f : CacheKey → V) (c : CacheState V)
        (now0 now1 : Nat) (k : CacheKey),
        ttlGet c now0 k = none → now0 ≤ now1 → now1 < now0 + ttlSeconds →
        cachedCall f (cachedCall f c now0 k).2 now1 k =
          ((cachedCall f c now0 k).1, (cachedCall f c now0 k).2)) ∧
    (∀ (s : String) (n : Int),
        lsKey s ≠ historyKey n ∧ lsKey s ≠ envKey ∧
        historyKey n ≠ envKey) ∧
    (∀ (params : List String) (kw1 kw2 : List (String × Value)),
        kw1.Perm kw2 → (kw1.map Prod.fst).Nodup →
        bindArgs params kw1 = bindArgs params kw2) := by
  refine ⟨?_, ?_, ?_⟩
  · intro V f c now0 now1 k hmiss hle hlt
    have h1 : cachedCall f c now0 k =
        (f k, ⟨(k, f k, now0) :: c.entries, c.invocations + 1⟩) := by
      unfold cachedCall
      rw [hmiss]
    have hget :
        ttlGet ⟨(k, f k, now0) :: c.entries, c.invocations + 1⟩ now1 k =
          some (f k) := by
      unfold ttlGet
      simp [List.find?_cons, hlt]
    rw [h1]
    unfold cachedCall
    rw [hget]
  · intro s n
    refine ⟨?_, ?_, ?_⟩ <;> simp [lsKey, historyKey, envKey]
  · intro params kw1 kw2 hperm hnd
    unfold bindArgs
    rw [funext (fun p => lookupArg_perm hperm hnd p)]

theorem c2_cache_amended_witness :
    (ttlGet (⟨[], 0⟩ : CacheState Nat) 0 (lsKey "/d") = none ∧
     cachedCall (fun _ => 42)
        (cachedCall (fun _ => 42) (⟨[], 0⟩ : CacheState Nat) 0
          (lsKey "/d")).2 3 (lsKey "/d") =
       ((cachedCall (fun _ => 42) (⟨[], 0⟩ : CacheState Nat) 0
          (lsKey "/d")).1,
        (cachedCall (fun _ => 42) (⟨[], 0⟩ : CacheState Nat) 0
          (lsKey "/d")).2)) ∧
    (lsKey "x" ≠ historyKey 5 ∧ lsKey "x" ≠ envKey ∧
     historyKey 5 ≠ envKey) ∧
    ([("path", Value.vStr "/d"), ("q", Value.vInt 1)].Perm
       [("q", Value.vInt 1), ("path", Value.vStr "/d")] ∧
     bindArgs ["path", "q"] [("path", Value.vStr "/d"), ("q", Value.vInt 1)]
       = bindArgs ["path", "q"]
           [("q", Value.vInt 1), ("path", Value.vStr "/d")]) := by
  have hperm : [("path", Value.vStr "/d"), ("q", Value.vInt 1)].Perm
      [("q", Value.vInt 1), ("path", Value.vStr "/d")] :=
    List.Perm.swap ("q", Value.vInt 1) ("path", Value.vStr "/d") []
  refine ⟨⟨rfl, ?_⟩, c2_cache_amended.2.1 "x" 5, hperm, ?_⟩
  · exact c2_cache_amended.1 Nat (fun _ => 42) ⟨[], 0⟩ 0 3 (lsKey "/d")
      rfl (by decide) (by decide)
  · exact c2_cache_amended.2.2 ["path", "q"] _ _ hperm (by decide)

/-- C3 counterexample: the claim says `ls` on a directory with entries
`{a, b}` returns exactly those two entry names.  The code returns
`[str(x) for x in Path(path).iterdir()]` — the full joined paths, not
the bare names: for `/d` with entries `a`, `b` it returns
`["/d/a", "/d/b"]`, and the name `"a"` is not among the results. -/
theorem c3_ls_returns_paths_not_names :
    ls fsAB "/d" = ["/d/a", "/d/b"] ∧ ¬ "a" ∈ ls fsAB "/d" := by
  constructor
  · rfl
  · decide

/-- C3 amended: `ls` returns the empty sequence when the path does not
exist or is not a directory; on a directory it returns exactly one
element per direct child — the directory path joined with the child
name — with no recursion and nothing else. -/
theorem c3_ls_amended (fs : FileSystem) (path : String)
    (entries : List String) :
    (fs path = none → ls fs path = []) ∧
    (fs path = some FSNode.file → ls fs path = []) ∧
    (fs path = some (FSNode.dir entries) →
      ls fs path = entries.map (fun e => pathJoin path e) ∧
      (ls fs path).length = entries.length ∧
      ∀ x, x ∈ ls fs path ↔ ∃ e ∈ entries, x = pathJoin path e) := by
  refine ⟨fun h => ?_, fun h => ?_, fun h => ?_⟩
  · unfold ls
    rw [h]
  · unfold ls
    rw [h]
  · unfold ls
    rw [h]
    refine ⟨rfl, by simp, fun x => ?_⟩
    simp only [List.mem_map]
    constructor
    · rintro ⟨e, he, rfl⟩
      exact ⟨e, he, rfl⟩
    · rintro ⟨e, he, rfl⟩
      exact ⟨e, he, rfl⟩

theorem c3_ls_amended_witness :
    fsAB "/x" = none ∧ ls fsAB "/x" = [] ∧
    fsAB "/d" = some (FSNode.dir ["a", "b"]) ∧
    ls fsAB "/d" = ["a", "b"].map (fun e => pathJoin "/d" e) :=
  ⟨rfl, (c3_ls_amended fsAB "/x" []).1 rfl, rfl,
   ((c3_ls_amended fsAB "/d" ["a", "b"]).2.2 rfl).1⟩

/-- C4: `history` returns the empty sequence for `n <= 0`, for a missing
file, and when no line is valid after stripping; with `k` valid lines
and `n > k` it returns all `k` stripped valid lines in file
(chronological) order; in general it returns the suffix of the valid
stripped lines of length at most `n` — the last `n` valid entries,
oldest first. -/
theorem c4_history_behaviour (file : Option (List String))
    (lines : List String) (n : Int) :
    (n ≤ 0 → history file n = []) ∧
    history none n = [] ∧
    (0 < n → (∀ l ∈ lines, validCommand (pyStrip l) = false) →
      history (some lines) n = []) ∧
    (0 < n → ((lines.map pyStrip).filter validCommand).length < n.toNat →
      history (some lines) n = (lines.map pyStrip).filter validCommand) ∧
    (0 < n → history (some lines) n =
      ((lines.map pyStrip).filter validCommand).drop
        (((lines.map pyStrip).filter validCommand).length - n.toNat)) := by
  have hgen : 0 < n → history (some lines) n =
      ((lines.map pyStrip).filter validCommand).drop
        (((lines.map pyStrip).filter validCommand).length - n.toNat) := by
    intro hn
    unfold history
    rw [if_neg (by omega)]
    show (((lines.reverse.map pyStrip).filter validCommand).take
        n.toNat).reverse = _
    rw [List.map_reverse, List.filter_reverse,
      ← List.rtake_eq_reverse_take_reverse]
    rfl
  refine ⟨fun h => ?_, ?_, fun hn hinv => ?_, fun hn hlt => ?_, hgen⟩
  · unfold history
    rw [if_pos h]
  · unfold history
    by_cases h : n ≤ 0
    · rw [if_pos h]
    · rw [if_neg h]
  · have hnil : (lines.map pyStrip).filter validCommand = [] := by
      rw [List.filter_eq_nil_iff]
      intro a ha
      obtain ⟨l, hl, rfl⟩ := List.mem_map.mp ha
      simp [hinv l hl]
    rw [hgen hn, hnil]
    simp
  · rw [hgen hn, Nat.sub_eq_zero_of_le (Nat.le_of_lt hlt), List.drop_zero]

theorem c4_history_witness :
    (0 : Int) < 10 ∧
    ((demoLines.map pyStrip).filter validCommand).length < (10 : Int).toNat ∧
    history (some demoLines) 10 =
      (demoLines.map pyStrip).filter validCommand :=
  ⟨by decide, by decide,
   (c4_history_behaviour (some demoLines) demoLines 10).2.2.2.1
     (by decide) (by decide)⟩

/-- C9: every element the `history` tool returns is some file line with
leading and trailing whitespace stripped, is non-empty, and does not
begin with `#`. -/
theorem c9_history_elements_valid (file : Option (List String))
    (lines : List String) (n : Int) (s : String)
    (hf : file = some lines) (hs : s ∈ history file n) :
    (∃ l ∈ lines, s = pyStrip l) ∧ ¬ s = "" ∧ headIsHash s = false := by
  subst hf
  unfold history at hs
  by_cases hn : n ≤ 0
  · rw [if_pos hn] at hs
    cases hs
  · rw [if_neg hn] at hs
    rw [List.mem_reverse] at hs
    have hs2 := List.mem_of_mem_take hs
    rw [List.mem_filter] at hs2
    obtain ⟨hmem, hvalid⟩ := hs2
    obtain ⟨l, hl, rfl⟩ := List.mem_map.mp hmem
    rw [List.mem_reverse] at hl
    unfold validCommand at hvalid
    rw [Bool.and_eq_true, Bool.not_eq_true', Bool.not_eq_true'] at hvalid
    refine ⟨⟨l, hl, rfl⟩, ?_, hvalid.2⟩
    intro hcontra
    rw [hcontra] at hvalid
    simp at hvalid

theorem c9_history_witness :
    "ls -la" ∈ history (some ["  ls -la  ", "# note"]) 5 ∧
    (∃ l ∈ ["  ls -la  ", "# note"], "ls -la" = pyStrip l) ∧
    ¬ "ls -la" = "" ∧ headIsHash "ls -la" = false := by
  refine ⟨by decide, ?_⟩
  exact c9_history_elements_valid (some ["  ls -la  ", "# note"])
    ["  ls -la  ", "# note"] 5 "ls -la" rfl (by decide)

/-- C10: on a successful run the suggestions list is empty exactly when
the final message is missing (the falsy guard) or its content is the
empty string; non-empty content always yields a non-empty list —
whitespace-only content yields the one-element list `[""]` — and
otherwise the list is the stripped content split on newlines. -/
theorem c10_suggestions_shape (fm : Option Message) (m : Message) :
    (generateCommand true (AgentResult.ok fm) = [] ↔
      fm = none ∨ ∃ m2, fm = some m2 ∧ m2.content = "") ∧
    (¬ m.content = "" →
      generateCommand true (AgentResult.ok (some m)) =
        pySplitNewline (pyStrip m.content) ∧
      generateCommand true (AgentResult.ok (some m)) ≠ []) ∧
    (¬ m.content = "" → (∀ c ∈ m.content.data, isPySpace c = true) →
      generateCommand true (AgentResult.ok (some m)) = [""]) := by
  refine ⟨?_, fun h => ?_, fun h hsp => ?_⟩
  · cases fm with
    | none => simp [generateCommand]
    | some m2 =>
        by_cases hc : m2.content = ""
        · simp [generateCommand, hc]
        · simp only [generateCommand, Bool.not_true, Bool.false_eq_true,
            if_false, if_neg hc]
          simp [splitSuggestions, pySplitNewline_ne_nil, hc]
  · constructor
    · simp [generateCommand, h, splitSuggestions]
    · simp only [generateCommand, Bool.not_true, Bool.false_eq_true,
        if_false, if_neg h]
      exact pySplitNewline_ne_nil _
  · have hstrip : pyStrip m.content = "" := pyStrip_of_all_space _ hsp
    simp [generateCommand, h, splitSuggestions, hstrip]
    rfl

theorem c10_suggestions_witness :
    ¬ (" a\nb " : String) = "" ∧
    generateCommand true
      (AgentResult.ok (some ⟨Role.assistant, " a\nb ", [], none⟩)) =
        pySplitNewline (pyStrip " a\nb ") ∧
    ¬ ("   " : String) = "" ∧
    generateCommand true
      (AgentResult.ok (some ⟨Role.assistant, "   ", [], none⟩)) = [""] :=
  ⟨by decide,
   ((c10_suggestions_shape none
      ⟨Role.assistant, " a\nb ", [], none⟩).2.1 (by decide)).1,
   by decide,
   (c10_suggestions_shape none
      ⟨Role.assistant, "   ", [], none⟩).2.2 (by decide) (by decide)⟩

/-- C8: `env()` returns `dict(os.environ)` — a freshly allocated copy of
the live environment: the snapshot holds the live contents at call time,
any sequence of mutations applied to the snapshot leaves the live
environment untouched, and a second independent snapshot taken after
those mutations still returns the original live contents. -/
theorem c8_env_disconnected_copy (s : PyState)
    (muts : List (String × String)) (h : s.WF) :
    (envTool s).2.heap (envTool s).1 = s.heap environAddr ∧
    (applyMuts (envTool s).2 (envTool s).1 muts).heap environAddr =
      s.heap environAddr ∧
    (envTool (applyMuts (envTool s).2 (envTool s).1 muts)).2.heap
        (envTool (applyMuts (envTool s).2 (envTool s).1 muts)).1 =
      s.heap environAddr := by
  have hne : environAddr ≠ (envTool s).1 := Nat.ne_of_lt h
  have hcopy : (envTool s).2.heap environAddr = s.heap environAddr := by
    simp only [envTool]
    split
    · rfl
    · rfl
  have hlive : (applyMuts (envTool s).2 (envTool s).1 muts).heap environAddr
      = s.heap environAddr := by
    rw [applyMuts_heap_ne muts _ _ _ hne, hcopy]
  refine ⟨by simp [envTool], hlive, ?_⟩
  have hsnap2 :
      (envTool (applyMuts (envTool s).2 (envTool s).1 muts)).2.heap
        (envTool (applyMuts (envTool s).2 (envTool s).1 muts)).1 =
      (applyMuts (envTool s).2 (envTool s).1 muts).heap environAddr := by
    simp [envTool]
  rw [hsnap2, hlive]

theorem c8_env_witness :
    pyState0.WF ∧
    ((envTool pyState0).2.heap (envTool pyState0).1 =
        pyState0.heap environAddr ∧
     (applyMuts (envTool pyState0).2 (envTool pyState0).1
        [("PATH", "/tmp")]).heap environAddr = pyState0.heap environAddr ∧
     (envTool (applyMuts (envTool pyState0).2 (envTool pyState0).1
        [("PATH", "/tmp")])).2.heap
        (envTool (applyMuts (envTool pyState0).2 (envTool pyState0).1
          [("PATH", "/tmp")])).1 = pyState0.heap environAddr) :=
  ⟨Nat.zero_lt_one,
   c8_env_disconnected_copy pyState0 [("PATH", "/tmp")] Nat.zero_lt_one⟩

end Bashme
